import Mathlib

/-!
Verification of the FOCX-Labs shop program (Solana/Anchor, Rust) against its
natural-language specification.  The Rust sources are shallowly embedded:
machine integers become `Nat` with explicit `% 2^w` where a cast or a
wrap-around matters, byte buffers become `List Nat` (each entry one byte),
and fallible instructions return `Except ErrorCode _`.
-/

set_option maxRecDepth 10000

namespace Shop

/-! ## Byte / bit helpers

Rust accesses bits of a `Vec<u8>`/`[u8; N]` as `buf[i / 8] >> (i % 8) & 1`
and sets them with `buf[i / 8] |= 1 << (i % 8)`.  These helpers mirror that
byte-level arithmetic on a `List Nat` of bytes.
-/

/-- Read bit `k` of a byte: `(b >> k) & 1 == 1`. -/
def getBitByte (b k : Nat) : Bool := (b >>> k) &&& 1 == 1

/-- Set bit `k` of a byte: `b | (1 << k)`. -/
def setBitByte (b k : Nat) : Nat := b ||| (1 <<< k)

/-- Clear bit `k` of a byte: `b & !(1 << k)` where `!` is u8 complement,
i.e. xor with `0xFF`. -/
def clearBitByte (b k : Nat) : Nat := b &&& (255 ^^^ (1 <<< k))

theorem getBitByte_eq_testBit (b k : Nat) : getBitByte b k = b.testBit k := by
  unfold getBitByte Nat.testBit
  rcases Nat.mod_two_eq_zero_or_one (b >>> k) with h | h <;>
    simp [Nat.and_one_is_mod, Nat.one_and_eq_mod_two, h]

theorem getBitByte_setBitByte_self (b k : Nat) :
    getBitByte (setBitByte b k) k = true := by
  simp [getBitByte_eq_testBit, setBitByte, Nat.one_shiftLeft, Nat.testBit_or,
    Nat.testBit_two_pow_self]

theorem getBitByte_setBitByte_ne (b j k : Nat) (h : j ≠ k) :
    getBitByte (setBitByte b k) j = getBitByte b j := by
  simp [getBitByte_eq_testBit, setBitByte, Nat.one_shiftLeft, Nat.testBit_or,
    Nat.testBit_two_pow_of_ne (Ne.symm h)]

theorem getBitByte_clearBitByte_self (b k : Nat) (hk : k < 8) :
    getBitByte (clearBitByte b k) k = false := by
  rw [getBitByte_eq_testBit]
  unfold clearBitByte
  rw [Nat.one_shiftLeft, Nat.testBit_and, Nat.testBit_xor,
    show (255 : Nat) = 2 ^ 8 - 1 from rfl, Nat.testBit_two_pow_sub_one,
    Nat.testBit_two_pow_self]
  simp [hk]

theorem getBitByte_clearBitByte_ne (b j k : Nat) (h : j ≠ k) (hj : j < 8) :
    getBitByte (clearBitByte b k) j = getBitByte b j := by
  rw [getBitByte_eq_testBit, getBitByte_eq_testBit]
  unfold clearBitByte
  rw [Nat.one_shiftLeft, Nat.testBit_and, Nat.testBit_xor,
    show (255 : Nat) = 2 ^ 8 - 1 from rfl, Nat.testBit_two_pow_sub_one,
    Nat.testBit_two_pow_of_ne (Ne.symm h)]
  simp [hj]

theorem getBitByte_zero (k : Nat) : getBitByte 0 k = false := by
  simp [getBitByte_eq_testBit]

/-- Helper: reading a list after `List.set`. -/
theorem getD_set_eq_ite (l : List Nat) (i j a d : Nat) :
    (l.set i a).getD j d = if i = j ∧ i < l.length then a else l.getD j d := by
  rw [List.getD_eq_getElem?_getD, List.getD_eq_getElem?_getD, List.getElem?_set]
  by_cases h1 : i = j
  · subst h1
    by_cases h2 : i < l.length
    · simp [h2]
    · have hn : l[i]? = none := List.getElem?_eq_none (by omega)
      simp [h2, hn]
  · simp [h1]

/-! ## Error codes (`src/error.rs`, the variants the verified paths use) -/

inductive ErrorCode : Type where
  | NoAvailableId
  | InvalidId
  | InvalidShardIndex
  | ShardIsFull
  | InvalidSalesRange
  | InvalidKeyword
  deriving DecidableEq, Repr

/-! ## ID allocator state (`src/state/id_generator.rs`) -/

/-- Constant `DEFAULT_CHUNK_SIZE: u32 = 10_000`. -/
def DEFAULT_CHUNK_SIZE : Nat := 10000

/-- Constant `MAX_CHUNKS_PER_MERCHANT: u32 = 100`. -/
def MAX_CHUNKS_PER_MERCHANT : Nat := 100

/-- Constant `ID_CHUNK_BITMAP_SIZE: usize = 1250`. -/
def ID_CHUNK_BITMAP_SIZE : Nat := 1250

/-- Account `IdChunk`.  `bitmap` is a `Vec<u8>`, one `Nat` per byte.
The `bump` field is irrelevant to the claims and omitted. -/
structure IdChunk where
  merchant_id : Nat
  chunk_index : Nat
  start_id : Nat
  end_id : Nat
  next_available : Nat
  bitmap : List Nat
  deriving DecidableEq, Repr

/-- Account `MerchantIdAccount` (numeric fields; the pubkey fields
`active_chunk`/`unused_chunks`/`bump` are irrelevant to the claims). -/
structure MerchantIdAccount where
  merchant_id : Nat
  last_chunk_index : Nat
  last_local_id : Nat
  deriving DecidableEq, Repr

namespace IdChunk

/-- Method `capacity`: `((end_id - start_id) + 1) as u32`. -/
def capacity (c : IdChunk) : Nat := ((c.end_id - c.start_id) + 1) % 2 ^ 32

/-- Method `is_id_used`: returns `false` when the byte index is out of the
bitmap range, else tests bit `local_id % 8` of byte `local_id / 8`. -/
def is_id_used (c : IdChunk) (local_id : Nat) : Bool :=
  if local_id / 8 ≥ c.bitmap.length then false
  else getBitByte (c.bitmap.getD (local_id / 8) 0) (local_id % 8)

/-- Method `mark_id_used`: sets the bit when the byte index is in range. -/
def mark_id_used (c : IdChunk) (local_id : Nat) : IdChunk :=
  if local_id / 8 < c.bitmap.length then
    { c with bitmap := c.bitmap.set (local_id / 8) (setBitByte (c.bitmap.getD (local_id / 8) 0) (local_id % 8)) }
  else c

/-- Method `is_full`: `next_available >= capacity`. -/
def is_full (c : IdChunk) : Bool := c.next_available ≥ c.capacity

end IdChunk

theorem capacity_mark (c : IdChunk) (i : Nat) :
    (c.mark_id_used i).capacity = c.capacity := by
  unfold IdChunk.mark_id_used IdChunk.capacity
  split <;> rfl

theorem start_mark (c : IdChunk) (i : Nat) :
    (c.mark_id_used i).start_id = c.start_id := by
  unfold IdChunk.mark_id_used
  split <;> rfl

theorem next_available_mark (c : IdChunk) (i : Nat) :
    (c.mark_id_used i).next_available = c.next_available := by
  unfold IdChunk.mark_id_used
  split <;> rfl

theorem bitmap_length_mark (c : IdChunk) (i : Nat) :
    (c.mark_id_used i).bitmap.length = c.bitmap.length := by
  unfold IdChunk.mark_id_used
  split <;> simp

/-- Marking bit `i` leaves every other bit unchanged (byte-level argument:
`|=` touches a single bit of a single byte). -/
theorem is_id_used_mark_ne (c : IdChunk) (i j : Nat) (h : j ≠ i) :
    (c.mark_id_used i).is_id_used j = c.is_id_used j := by
  by_cases hb : i / 8 < c.bitmap.length
  · have hmark : c.mark_id_used i = { c with bitmap := c.bitmap.set (i / 8) (setBitByte (c.bitmap.getD (i / 8) 0) (i % 8)) } := by
      unfold IdChunk.mark_id_used
      rw [if_pos hb]
    rw [hmark]
    unfold IdChunk.is_id_used
    simp only [List.length_set, getD_set_eq_ite]
    by_cases hj : j / 8 ≥ c.bitmap.length
    · rw [if_pos hj, if_pos hj]
    · rw [if_neg hj, if_neg hj]
      by_cases hsame : i / 8 = j / 8
      · rw [if_pos ⟨hsame, hb⟩]
        have hbit : j % 8 ≠ i % 8 := by omega
        rw [getBitByte_setBitByte_ne _ _ _ hbit, hsame]
      · rw [if_neg (fun hc => hsame hc.1)]
  · have hmark : c.mark_id_used i = c := by
      unfold IdChunk.mark_id_used
      rw [if_neg hb]
    rw [hmark]

/-- Marking bit `i` (with the byte in range) makes `is_id_used i` true. -/
theorem is_id_used_mark_self (c : IdChunk) (i : Nat)
    (h : i / 8 < c.bitmap.length) :
    (c.mark_id_used i).is_id_used i = true := by
  have hmark : c.mark_id_used i = { c with bitmap := c.bitmap.set (i / 8) (setBitByte (c.bitmap.getD (i / 8) 0) (i % 8)) } := by
    unfold IdChunk.mark_id_used
    rw [if_pos h]
  rw [hmark]
  unfold IdChunk.is_id_used
  simp only [List.length_set, getD_set_eq_ite]
  rw [if_neg (by omega), if_pos (by exact ⟨trivial, h⟩), getBitByte_setBitByte_self]

/-- An all-zero bitmap has no used id. -/
theorem is_id_used_zero (c : IdChunk) (h : ∀ b ∈ c.bitmap, b = 0) (j : Nat) :
    c.is_id_used j = false := by
  unfold IdChunk.is_id_used
  by_cases hb : j / 8 ≥ c.bitmap.length
  · rw [if_pos hb]
  · have hz : c.bitmap.getD (j / 8) 0 = 0 := by
      rw [List.getD_eq_getElem?_getD]
      cases hq : c.bitmap[j / 8]? with
      | none => rfl
      | some v => simpa using h _ (List.getElem?_mem hq)
    rw [if_neg hb, hz, getBitByte_zero]

/-! ## ID allocator instructions (`src/instructions/id_generator.rs`) -/

/-- Scan loop of `generate_product_id`, with the loop guard
`local_id < capacity` compiled into the structural counter
`remaining = capacity - local_id`. -/
def find_first_free_aux (c : IdChunk) : Nat → Nat → Option Nat
  | 0, _ => none
  | remaining + 1, local_id =>
    if c.is_id_used local_id then find_first_free_aux c remaining (local_id + 1)
    else some local_id

/-- The `while local_id < capacity` search for the first unused local id at
or after `local_id`. -/
def find_first_free (c : IdChunk) (local_id : Nat) : Option Nat :=
  find_first_free_aux c (c.capacity - local_id) local_id

/-- Instruction `generate_product_id`: fails with `NoAvailableId` when the
chunk `is_full` (cursor at capacity) or the scan finds no free bit; otherwise
marks the bit, advances `next_available` to the successor, records the local
id on the merchant account and returns `start_id + local_id` (u64). -/
def generate_product_id (m : MerchantIdAccount) (c : IdChunk) :
    Except ErrorCode (Nat × MerchantIdAccount × IdChunk) :=
  if c.is_full then .error .NoAvailableId
  else
    match find_first_free c c.next_available with
    | some local_id =>
        .ok ((c.start_id + local_id) % 2 ^ 64,
          { m with last_local_id := local_id },
          { c.mark_id_used local_id with next_available := (local_id + 1) % 2 ^ 32 })
    | none => .error .NoAvailableId

/-- Repeated invocation of `generate_product_id`, collecting each call
result.  A failed instruction leaves the accounts unchanged (the Solana
runtime discards account writes of a failed instruction). -/
def genCalls (m : MerchantIdAccount) (c : IdChunk) :
    Nat → List (Except ErrorCode Nat) × MerchantIdAccount × IdChunk
  | 0 => ([], m, c)
  | n + 1 =>
    match generate_product_id m c with
    | .ok (id, m2, c2) =>
        let r := genCalls m2 c2 n
        (.ok id :: r.1, r.2)
    | .error e =>
        let r := genCalls m c n
        (.error e :: r.1, r.2)

/-- Instruction `release_id`: range-checks the id, then clears its bitmap
bit (`bitmap[byte] &= !(1 << bit)`); `next_available` is not touched.
The Rust indexing would panic if the byte index exceeded the bitmap length;
here `List.set` is a no-op in that (never exercised) case. -/
def release_id (c : IdChunk) (id : Nat) : Except ErrorCode IdChunk :=
  if id ≥ c.start_id ∧ id ≤ c.end_id then
    .ok { c with bitmap := c.bitmap.set ((id - c.start_id) / 8) (clearBitByte (c.bitmap.getD ((id - c.start_id) / 8) 0) ((id - c.start_id) % 8)) }
  else .error .InvalidId

/-- Loop of `batch_generate_ids`:
`while allocated < count && local_id < capacity { ... }`, with the guard
`local_id < capacity` compiled into the structural counter
`remaining = capacity - local_id` (marking a bit does not change the
capacity, so the counter is exact).  Returns the mutated chunk, the
collected ids, and the final `local_id`/`allocated`. -/
def batch_loop_aux (count : Nat) : Nat → IdChunk → Nat → Nat → List Nat →
    IdChunk × List Nat × Nat × Nat
  | 0, c, allocated, local_id, ids => (c, ids, local_id, allocated)
  | remaining + 1, c, allocated, local_id, ids =>
    if allocated < count then
      if c.is_id_used local_id then
        batch_loop_aux count remaining c allocated (local_id + 1) ids
      else
        batch_loop_aux count remaining (c.mark_id_used local_id) (allocated + 1)
          (local_id + 1) (ids ++ [(c.start_id + local_id) % 2 ^ 64])
    else (c, ids, local_id, allocated)

def batch_loop (c : IdChunk) (count allocated local_id : Nat) (ids : List Nat) :
    IdChunk × List Nat × Nat × Nat :=
  batch_loop_aux count (c.capacity - local_id) c allocated local_id ids

/-- Instruction `batch_generate_ids` (function body): validates
`0 < count ≤ 100`, runs the allocation loop, conditionally updates
`next_available`/`last_local_id` (only `if allocated > 0`), and requires
`allocated == count`. -/
def batch_generate_ids (m : MerchantIdAccount) (c : IdChunk) (count : Nat) :
    Except ErrorCode (List Nat × MerchantIdAccount × IdChunk) :=
  if count > 0 ∧ count ≤ 100 then
    let r := batch_loop c count 0 c.next_available []
    let st :=
      if r.2.2.2 > 0 then
        ({ r.1 with next_available := r.2.2.1 % 2 ^ 32 },
         { m with last_local_id := (r.2.2.1 - 1) % 2 ^ 32 })
      else (r.1, m)
    if r.2.2.2 = count then .ok (r.2.1, st.2, st.1) else .error .NoAvailableId
  else .error .InvalidId

/-- Instruction-level view of `batch_generate_ids`: the Solana runtime
discards every account write of an instruction that returns an error, so a
failing call leaves the merchant account and the chunk exactly as before. -/
def batch_generate_ids_tx (m : MerchantIdAccount) (c : IdChunk) (count : Nat) :
    Except ErrorCode (List Nat) × MerchantIdAccount × IdChunk :=
  match batch_generate_ids m c count with
  | .ok (ids, m2, c2) => (.ok ids, m2, c2)
  | .error e => (.error e, m, c)

/-- The unused local ids of a chunk from position `i` up to capacity, in
increasing order (specification device for the batch loop). -/
def freeIndices (c : IdChunk) (i : Nat) : List Nat :=
  (List.range' i (c.capacity - i)).filter (fun j => ! c.is_id_used j)

/-! ## Chunk range construction

`register_merchant_atomic` (chunk 0) and `allocate_new_chunk` both derive a
chunk id range from the owning merchant and the chunk index:
`start = merchant_id as u64 * 10000 + chunk_index as u64 * chunk_size`,
`end = start + chunk_size - 1` (for chunk 0 the second summand is 0).
-/

def chunk_start_id (merchant_id chunk_index chunk_size : Nat) : Nat :=
  merchant_id * 10000 + chunk_index * chunk_size

def chunk_end_id (merchant_id chunk_index chunk_size : Nat) : Nat :=
  chunk_start_id merchant_id chunk_index chunk_size + chunk_size - 1

/-- Two inclusive id ranges are disjoint. -/
def ranges_disjoint (s1 e1 s2 e2 : Nat) : Prop := e1 < s2 ∨ e2 < s1

/-! ## Allocation facts for `generate_product_id` -/

theorem end_mark (c : IdChunk) (i : Nat) :
    (c.mark_id_used i).end_id = c.end_id := by
  unfold IdChunk.mark_id_used
  split <;> rfl

theorem capacity_lt (c : IdChunk) : c.capacity < 2 ^ 32 :=
  Nat.mod_lt _ (by norm_num)

theorem find_first_free_at_free (c : IdChunk) (na : Nat)
    (hlt : na < c.capacity) (hfree : c.is_id_used na = false) :
    find_first_free c na = some na := by
  unfold find_first_free
  obtain ⟨r, hr⟩ : ∃ r, c.capacity - na = r + 1 := ⟨c.capacity - na - 1, by omega⟩
  rw [hr]
  unfold find_first_free_aux
  simp [hfree]

theorem generate_step (m : MerchantIdAccount) (c : IdChunk)
    (hlt : c.next_available < c.capacity)
    (hfree : c.is_id_used c.next_available = false) :
    generate_product_id m c = .ok ((c.start_id + c.next_available) % 2 ^ 64,
      { m with last_local_id := c.next_available },
      { c.mark_id_used c.next_available with next_available := (c.next_available + 1) % 2 ^ 32 }) := by
  unfold generate_product_id
  have hnf : c.is_full = false := by
    unfold IdChunk.is_full
    exact decide_eq_false (by omega)
  rw [hnf]
  simp only [Bool.false_eq_true, if_false]
  rw [find_first_free_at_free c _ hlt hfree]

theorem generate_full (m : MerchantIdAccount) (c : IdChunk)
    (h : c.capacity ≤ c.next_available) :
    generate_product_id m c = .error .NoAvailableId := by
  unfold generate_product_id
  have : c.is_full = true := by
    unfold IdChunk.is_full
    exact decide_eq_true h
  rw [this]
  simp

/-- Splitting a run of `generate_product_id` calls. -/
theorem genCalls_add (m : MerchantIdAccount) (c : IdChunk) (a b : Nat) :
    (genCalls m c (a + b)).1 =
      (genCalls m c a).1 ++ (genCalls (genCalls m c a).2.1 (genCalls m c a).2.2 b).1 ∧
    (genCalls m c (a + b)).2 =
      (genCalls (genCalls m c a).2.1 (genCalls m c a).2.2 b).2 := by
  induction a generalizing m c with
  | zero => simp [genCalls]
  | succ a ih =>
    have hshift : a + 1 + b = (a + b) + 1 := by omega
    rw [hshift]
    cases hg : generate_product_id m c with
    | ok v =>
      obtain ⟨i, m2, c2⟩ := v
      simp only [genCalls, hg]
      have := ih m2 c2
      simp only [List.cons_append, this.1, this.2]
      exact ⟨trivial, trivial⟩
    | error e =>
      simp only [genCalls, hg]
      have := ih m c
      simp only [List.cons_append, this.1, this.2]
      exact ⟨trivial, trivial⟩

/-- A run of `n` allocations from a chunk whose bits at or beyond the cursor
are all clear allocates exactly the ids `start_id + next_available + k`
for `k < n`, advances the cursor by `n`, and keeps the invariant. -/
theorem genCalls_spec (n : Nat) (m : MerchantIdAccount) (c : IdChunk)
    (hinv : ∀ j, j ≥ c.next_available → c.is_id_used j = false)
    (hse : c.start_id ≤ c.end_id) (he : c.end_id < 2 ^ 64)
    (hcap : c.end_id - c.start_id + 1 < 2 ^ 32)
    (hn : c.next_available + n ≤ c.capacity) :
    (genCalls m c n).1 =
      (List.range' c.next_available n).map (fun k => Except.ok (c.start_id + k)) ∧
    (genCalls m c n).2.2.next_available = c.next_available + n ∧
    (∀ j, j ≥ c.next_available + n → (genCalls m c n).2.2.is_id_used j = false) ∧
    (genCalls m c n).2.2.start_id = c.start_id ∧
    (genCalls m c n).2.2.end_id = c.end_id ∧
    (genCalls m c n).2.2.capacity = c.capacity := by
  induction n generalizing m c with
  | zero => exact ⟨rfl, by simp [genCalls], fun j hj => hinv j (by omega), rfl, rfl, rfl⟩
  | succ n ih =>
    have hccap : c.capacity = c.end_id - c.start_id + 1 := Nat.mod_eq_of_lt hcap
    have hlt : c.next_available < c.capacity := by omega
    have hfree : c.is_id_used c.next_available = false := hinv _ (Nat.le_refl _)
    have hg := generate_step m c hlt hfree
    set m2 : MerchantIdAccount := { m with last_local_id := c.next_available } with hm2
    set c2 : IdChunk := { c.mark_id_used c.next_available with next_available := (c.next_available + 1) % 2 ^ 32 } with hc2
    have hna1 : (c.next_available + 1) % 2 ^ 32 = c.next_available + 1 :=
      Nat.mod_eq_of_lt (by have := capacity_lt c; omega)
    have hc2na : c2.next_available = c.next_available + 1 := hna1
    have hc2start : c2.start_id = c.start_id := start_mark c _
    have hc2end : c2.end_id = c.end_id := end_mark c _
    have hc2cap : c2.capacity = c.capacity := capacity_mark c _
    have hc2inv : ∀ j, j ≥ c2.next_available → c2.is_id_used j = false := by
      intro j hj
      rw [hc2na] at hj
      have : c2.is_id_used j = (c.mark_id_used c.next_available).is_id_used j := rfl
      rw [this, is_id_used_mark_ne c _ j (by omega)]
      exact hinv j (by omega)
    have hid : (c.start_id + c.next_available) % 2 ^ 64 = c.start_id + c.next_available := by
      apply Nat.mod_eq_of_lt
      omega
    have ihr := ih m2 c2 hc2inv (by rw [hc2start, hc2end]; exact hse)
      (by rw [hc2end]; exact he) (by rw [hc2start, hc2end]; exact hcap)
      (by rw [hc2na, hc2cap]; omega)
    have hunfold : genCalls m c (n + 1) =
        (Except.ok ((c.start_id + c.next_available) % 2 ^ 64) :: (genCalls m2 c2 n).1,
          (genCalls m2 c2 n).2) := by
      simp only [genCalls, hg]
    rw [hunfold]
    refine ⟨?_, ?_, ?_, ?_, ?_, ?_⟩
    · rw [List.range'_succ]
      simp only [List.map_cons, hid]
      rw [ihr.1, hc2na, hc2start]
    · rw [ihr.2.1, hc2na]; omega
    · intro j hj
      exact (ihr.2.2.1) j (by rw [hc2na]; omega)
    · rw [ihr.2.2.2.1, hc2start]
    · rw [ihr.2.2.2.2.1, hc2end]
    · rw [ihr.2.2.2.2.2, hc2cap]

/-! ## Concrete allocator scenario (spec §8 example: start 10000, capacity 4) -/

def merchantEx : MerchantIdAccount := { merchant_id := 1, last_chunk_index := 0, last_local_id := 0 }

def chunkEx : IdChunk :=
  { merchant_id := 1, chunk_index := 0, start_id := 10000, end_id := 10003,
    next_available := 0, bitmap := List.replicate 1250 0 }

/-- State of the example chunk after four successful allocations, the failed
fifth allocation, and `release_id(10001)`: bit 1 cleared (byte 0 is
`0b1101 = 13`) but the cursor still sits at capacity. -/
def chunkExReleased : IdChunk :=
  { merchant_id := 1, chunk_index := 0, start_id := 10000, end_id := 10003,
    next_available := 4, bitmap := 13 :: List.replicate 1249 0 }

/-- C1 counterexample: in the spec scenario (start_id 10000, capacity 4,
empty bitmap), four allocations return 10000..10003 and the fifth fails,
and `release_id(10001)` clears the bit — but the next
`generate_product_id` fails with `NoAvailableId` instead of returning
10001 again: `is_full` compares only the cursor `next_available` (= 4 =
capacity) and the scan never restarts below the cursor, so the claimed
sixth result `Ok(10001)` is refuted. -/
theorem c1_released_id_not_resurfaced_counterexample :
    (genCalls merchantEx chunkEx 5).1 =
      [Except.ok 10000, Except.ok 10001, Except.ok 10002, Except.ok 10003,
        Except.error ErrorCode.NoAvailableId] ∧
    release_id (genCalls merchantEx chunkEx 5).2.2 10001 = Except.ok chunkExReleased ∧
    generate_product_id (genCalls merchantEx chunkEx 5).2.1 chunkExReleased =
      Except.error ErrorCode.NoAvailableId :=
  ⟨rfl, rfl, rfl⟩

/-- C1 amended: four allocations from the example chunk return
10000,10001,10002,10003; the fifth fails with `NoAvailableId`;
`release_id(10001)` clears the corresponding bitmap bit
(`is_id_used 1 = false` afterwards) — but the subsequent
`generate_product_id` call still fails with `NoAvailableId`, because the
released offset lies below the cursor `next_available = 4 = capacity` and
`is_full`/the forward scan consult only the cursor. -/
theorem c1_released_id_below_cursor_not_reallocated :
    (genCalls merchantEx chunkEx 5).1 =
      [Except.ok 10000, Except.ok 10001, Except.ok 10002, Except.ok 10003,
        Except.error ErrorCode.NoAvailableId] ∧
    release_id (genCalls merchantEx chunkEx 5).2.2 10001 = Except.ok chunkExReleased ∧
    chunkExReleased.is_id_used 1 = false ∧
    chunkExReleased.next_available = chunkExReleased.capacity ∧
    generate_product_id (genCalls merchantEx chunkEx 5).2.1 chunkExReleased =
      Except.error ErrorCode.NoAvailableId :=
  ⟨rfl, rfl, rfl, rfl, rfl⟩

/-- C5: from a chunk whose bitmap is all zero and whose cursor is 0,
`generate_product_id` succeeds exactly `capacity` times, returning the
pairwise-distinct ids `start_id..end_id` in order, and the
`(capacity+1)`-th call fails with `NoAvailableId`. -/
theorem c5_generate_exhausts_capacity (m : MerchantIdAccount) (c : IdChunk)
    (hna : c.next_available = 0) (hzero : ∀ b ∈ c.bitmap, b = 0)
    (hse : c.start_id ≤ c.end_id) (he : c.end_id < 2 ^ 64)
    (hcap : c.end_id - c.start_id + 1 < 2 ^ 32) :
    (genCalls m c (c.capacity + 1)).1 =
      ((List.range c.capacity).map fun k => Except.ok (c.start_id + k)) ++
        [Except.error ErrorCode.NoAvailableId] ∧
    ((List.range c.capacity).map fun k => c.start_id + k).Nodup ∧
    (∀ i ∈ (List.range c.capacity).map fun k => c.start_id + k,
      c.start_id ≤ i ∧ i ≤ c.end_id) := by
  have hccap : c.capacity = c.end_id - c.start_id + 1 := Nat.mod_eq_of_lt hcap
  have hinv : ∀ j, j ≥ c.next_available → c.is_id_used j = false :=
    fun j _ => is_id_used_zero c hzero j
  have hspec := genCalls_spec c.capacity m c hinv hse he hcap (by omega)
  have hadd := genCalls_add m c c.capacity 1
  refine ⟨?_, ?_, ?_⟩
  · rw [hadd.1]
    have hfull : (genCalls m c c.capacity).2.2.capacity ≤
        (genCalls m c c.capacity).2.2.next_available := by
      rw [hspec.2.1, hspec.2.2.2.2.2, hna]
      omega
    have htail : (genCalls (genCalls m c c.capacity).2.1 (genCalls m c c.capacity).2.2 1).1 =
        [Except.error ErrorCode.NoAvailableId] := by
      simp [genCalls, generate_full _ _ hfull]
    rw [htail, hspec.1, hna, List.range_eq_range']
  · apply List.Nodup.map
    · exact add_right_injective c.start_id
    · exact List.nodup_range _
  · intro i hi
    simp only [List.mem_map, List.mem_range] at hi
    obtain ⟨k, hk, rfl⟩ := hi
    omega

/-- Witness for C5 at a concrete chunk: start 0, end 3, capacity 4. -/
theorem c5_generate_exhausts_capacity_witness :
    (genCalls (⟨1, 0, 0⟩ : MerchantIdAccount) (⟨1, 0, 0, 3, 0, [0]⟩ : IdChunk) 5).1 =
      [Except.ok 0, Except.ok 1, Except.ok 2, Except.ok 3,
        Except.error ErrorCode.NoAvailableId] := by
  have h := (c5_generate_exhausts_capacity (⟨1, 0, 0⟩ : MerchantIdAccount)
    (⟨1, 0, 0, 3, 0, [0]⟩ : IdChunk)
    rfl (by simp) (by decide) (by decide) (by decide)).1
  have hc : ((⟨1, 0, 0, 3, 0, [0]⟩ : IdChunk)).capacity = 4 := rfl
  rw [hc] at h
  simpa using h

/-- C3 counterexample: the chunks (merchant 1, chunk 1) and (merchant 2,
chunk 0), both with `chunk_size = 10000` and chunk indices within
`MAX_CHUNKS_PER_MERCHANT`, receive the identical range 20000..29999 —
the construction `merchant_id*10000 + chunk_index*chunk_size` collides
across merchants because a merchant reserves only 10000 ids but can own
up to 100 chunks of 10000 ids each. -/
theorem c3_cross_merchant_overlap_counterexample :
    chunk_start_id 1 1 DEFAULT_CHUNK_SIZE = chunk_start_id 2 0 DEFAULT_CHUNK_SIZE ∧
    chunk_end_id 1 1 DEFAULT_CHUNK_SIZE = chunk_end_id 2 0 DEFAULT_CHUNK_SIZE ∧
    ¬ ranges_disjoint (chunk_start_id 1 1 DEFAULT_CHUNK_SIZE)
        (chunk_end_id 1 1 DEFAULT_CHUNK_SIZE)
        (chunk_start_id 2 0 DEFAULT_CHUNK_SIZE)
        (chunk_end_id 2 0 DEFAULT_CHUNK_SIZE) ∧
    ((1 : Nat), (1 : Nat)) ≠ ((2 : Nat), (0 : Nat)) ∧
    1 ≤ MAX_CHUNKS_PER_MERCHANT ∧ 0 ≤ MAX_CHUNKS_PER_MERCHANT := by
  refine ⟨rfl, rfl, ?_, by decide, by decide, by decide⟩
  unfold ranges_disjoint
  decide

/-- C3 amended: ranges of two distinct chunks are guaranteed disjoint only
when the chunks belong to the same merchant; for distinct chunk indices of
one merchant the ranges never overlap. -/
theorem c3_same_merchant_chunks_disjoint (mid ci1 ci2 : Nat) (h : ci1 ≠ ci2)
    (_h1 : ci1 ≤ MAX_CHUNKS_PER_MERCHANT) (_h2 : ci2 ≤ MAX_CHUNKS_PER_MERCHANT) :
    ranges_disjoint (chunk_start_id mid ci1 DEFAULT_CHUNK_SIZE)
      (chunk_end_id mid ci1 DEFAULT_CHUNK_SIZE)
      (chunk_start_id mid ci2 DEFAULT_CHUNK_SIZE)
      (chunk_end_id mid ci2 DEFAULT_CHUNK_SIZE) := by
  simp only [ranges_disjoint, chunk_end_id, chunk_start_id, DEFAULT_CHUNK_SIZE]
  rcases Nat.lt_or_ge ci1 ci2 with hlt | hge
  · left; omega
  · right; omega

/-- Witness for the amended C3 at merchant 1, chunks 0 and 1. -/
theorem c3_same_merchant_chunks_disjoint_witness :
    (0 : Nat) ≠ 1 ∧ 0 ≤ MAX_CHUNKS_PER_MERCHANT ∧ 1 ≤ MAX_CHUNKS_PER_MERCHANT ∧
    ranges_disjoint (chunk_start_id 1 0 DEFAULT_CHUNK_SIZE)
      (chunk_end_id 1 0 DEFAULT_CHUNK_SIZE)
      (chunk_start_id 1 1 DEFAULT_CHUNK_SIZE)
      (chunk_end_id 1 1 DEFAULT_CHUNK_SIZE) :=
  ⟨by decide, by decide, by decide,
    c3_same_merchant_chunks_disjoint 1 0 1 (by decide) (by decide) (by decide)⟩

/-! ## Batch allocation (`batch_generate_ids`) -/

theorem freeIndices_eq_nil (c : IdChunk) (i : Nat) (h : c.capacity ≤ i) :
    freeIndices c i = [] := by
  unfold freeIndices
  rw [Nat.sub_eq_zero_of_le h]
  rfl

theorem freeIndices_step (c : IdChunk) (i : Nat) (h : i < c.capacity) :
    freeIndices c i =
      if c.is_id_used i then freeIndices c (i + 1) else i :: freeIndices c (i + 1) := by
  unfold freeIndices
  have hsplit : c.capacity - i = (c.capacity - (i + 1)) + 1 := by omega
  rw [hsplit, List.range'_succ, List.filter_cons]
  cases h2 : c.is_id_used i <;> simp [h2]

theorem freeIndices_mark (c : IdChunk) (i : Nat) :
    freeIndices (c.mark_id_used i) (i + 1) = freeIndices c (i + 1) := by
  unfold freeIndices
  rw [capacity_mark]
  apply List.filter_congr
  intro j hj
  have hji : i + 1 ≤ j := (List.mem_range'_1.mp hj).1
  rw [is_id_used_mark_ne c i j (by omega)]

theorem mem_freeIndices_lt (c : IdChunk) (i j : Nat) (h : j ∈ freeIndices c i) :
    i ≤ j ∧ j < c.capacity := by
  unfold freeIndices at h
  have := (List.mem_range'_1.mp (List.mem_filter.mp h).1)
  omega

/-- Specification of the batch allocation loop: it emits (as u64 global
ids, in order) exactly the first `count - allocated` free offsets at or
after `local_id`, and the final `allocated` counter grows by the number
of ids emitted. -/
theorem batch_loop_aux_spec (count : Nat) :
    ∀ (remaining : Nat) (c : IdChunk) (allocated local_id : Nat) (ids : List Nat),
    remaining = c.capacity - local_id →
    allocated ≤ count →
    (batch_loop_aux count remaining c allocated local_id ids).2.1 =
      ids ++ ((freeIndices c local_id).take (count - allocated)).map
        (fun j => (c.start_id + j) % 2 ^ 64) ∧
    (batch_loop_aux count remaining c allocated local_id ids).2.2.2 =
      allocated + min (count - allocated) (freeIndices c local_id).length := by
  intro remaining
  induction remaining with
  | zero =>
    intro c allocated local_id ids hrem hle
    have hnil : freeIndices c local_id = [] := freeIndices_eq_nil c local_id (by omega)
    simp [batch_loop_aux, hnil]
  | succ r ih =>
    intro c allocated local_id ids hrem hle
    have hlt : local_id < c.capacity := by omega
    by_cases ha : allocated < count
    · cases hu : c.is_id_used local_id with
      | true =>
        have hfi : freeIndices c local_id = freeIndices c (local_id + 1) := by
          rw [freeIndices_step c _ hlt, hu]
          simp
        have hred : batch_loop_aux count (r + 1) c allocated local_id ids =
            batch_loop_aux count r c allocated (local_id + 1) ids := by
          simp [batch_loop_aux, ha, hu]
        rw [hred, hfi]
        exact ih c allocated (local_id + 1) ids (by omega) hle
      | false =>
        have hfi : freeIndices c local_id = local_id :: freeIndices c (local_id + 1) := by
          rw [freeIndices_step c _ hlt, hu]
          simp
        have hred : batch_loop_aux count (r + 1) c allocated local_id ids =
            batch_loop_aux count r (c.mark_id_used local_id) (allocated + 1)
              (local_id + 1) (ids ++ [(c.start_id + local_id) % 2 ^ 64]) := by
          simp [batch_loop_aux, ha, hu]
        have ihr := ih (c.mark_id_used local_id) (allocated + 1) (local_id + 1)
          (ids ++ [(c.start_id + local_id) % 2 ^ 64])
          (by rw [capacity_mark]; omega) (by omega)
        rw [hred]
        rw [freeIndices_mark, start_mark] at ihr
        have hcnt : count - allocated = (count - (allocated + 1)) + 1 := by omega
        constructor
        · rw [ihr.1, hfi, hcnt, List.take_succ_cons, List.map_cons, List.append_assoc]
          rfl
        · rw [ihr.2, hfi]
          simp only [List.length_cons]
          omega
    · have hred : batch_loop_aux count (r + 1) c allocated local_id ids =
          (c, ids, local_id, allocated) := by
        simp [batch_loop_aux, ha]
      have hz : count - allocated = 0 := by omega
      rw [hred, hz]
      simp

theorem batch_generate_ids_of_ne (m : MerchantIdAccount) (c : IdChunk) (count : Nat)
    (h1 : 0 < count) (h2 : count ≤ 100)
    (hne : (batch_loop c count 0 c.next_available []).2.2.2 ≠ count) :
    batch_generate_ids m c count = .error .NoAvailableId := by
  unfold batch_generate_ids
  rw [if_pos ⟨h1, h2⟩]
  exact if_neg hne

theorem batch_generate_ids_of_eq (m : MerchantIdAccount) (c : IdChunk) (count : Nat)
    (h1 : 0 < count) (h2 : count ≤ 100)
    (heq : (batch_loop c count 0 c.next_available []).2.2.2 = count) :
    ∃ m2 c2, batch_generate_ids m c count =
      .ok ((batch_loop c count 0 c.next_available []).2.1, m2, c2) := by
  unfold batch_generate_ids
  rw [if_pos ⟨h1, h2⟩]
  exact ⟨_, _, if_pos heq⟩

/-- C4: for `1 ≤ count ≤ 100`, if fewer than `count` free slots remain
between `next_available` and the end of the chunk, `batch_generate_ids`
fails with `NoAvailableId` and — because the Solana runtime discards every
account write of a failing instruction — the merchant account and the
chunk (bitmap, `next_available`, `last_local_id`) are unchanged; if at
least `count` free slots exist, the call returns exactly the first
`count` free offsets as `count` pairwise-distinct global ids. -/
theorem c4_batch_generate_atomic (m : MerchantIdAccount) (c : IdChunk) (count : Nat)
    (hc1 : 1 ≤ count) (hc2 : count ≤ 100)
    (hse : c.start_id ≤ c.end_id) (he : c.end_id < 2 ^ 64)
    (hcap : c.end_id - c.start_id + 1 < 2 ^ 32) :
    ((freeIndices c c.next_available).length < count →
      batch_generate_ids_tx m c count = (.error .NoAvailableId, m, c)) ∧
    (count ≤ (freeIndices c c.next_available).length →
      (batch_generate_ids_tx m c count).1 =
        .ok (((freeIndices c c.next_available).take count).map (fun j => c.start_id + j)) ∧
      (((freeIndices c c.next_available).take count).map (fun j => c.start_id + j)).length = count ∧
      (((freeIndices c c.next_available).take count).map (fun j => c.start_id + j)).Nodup) := by
  have hccap : c.capacity = c.end_id - c.start_id + 1 := Nat.mod_eq_of_lt hcap
  have hloop := batch_loop_aux_spec count (c.capacity - c.next_available) c 0
    c.next_available [] rfl (by omega)
  have hbl1 : (batch_loop c count 0 c.next_available []).2.1 =
      ((freeIndices c c.next_available).take count).map (fun j => (c.start_id + j) % 2 ^ 64) := by
    rw [batch_loop]
    simpa using hloop.1
  have hbl2 : (batch_loop c count 0 c.next_available []).2.2.2 =
      min count (freeIndices c c.next_available).length := by
    rw [batch_loop]
    simpa using hloop.2
  constructor
  · intro hless
    have hne : (batch_loop c count 0 c.next_available []).2.2.2 ≠ count := by omega
    unfold batch_generate_ids_tx
    rw [batch_generate_ids_of_ne m c count (by omega) hc2 hne]
  · intro hge
    have heq : (batch_loop c count 0 c.next_available []).2.2.2 = count := by omega
    obtain ⟨m2, c2, hb⟩ := batch_generate_ids_of_eq m c count (by omega) hc2 heq
    have hmap : ((freeIndices c c.next_available).take count).map
        (fun j => (c.start_id + j) % 2 ^ 64) =
        ((freeIndices c c.next_available).take count).map (fun j => c.start_id + j) := by
      apply List.map_congr_left
      intro j hj
      have hjm := mem_freeIndices_lt c _ j (List.take_sublist _ _ |>.mem hj)
      exact Nat.mod_eq_of_lt (by omega)
    refine ⟨?_, ?_, ?_⟩
    · unfold batch_generate_ids_tx
      rw [hb, hbl1, hmap]
    · rw [List.length_map, List.length_take]
      omega
    · apply List.Nodup.map (add_right_injective c.start_id)
      apply List.Nodup.sublist (List.take_sublist _ _)
      apply List.Nodup.filter
      exact List.nodup_range' _ _

/-- Witness for C4 on a 4-slot chunk: requesting 5 ids fails atomically
(the accounts are returned unchanged), requesting 4 succeeds with the four
distinct ids 0..3. -/
theorem c4_batch_generate_atomic_witness :
    (freeIndices (⟨1, 0, 0, 3, 0, [0]⟩ : IdChunk) 0).length < 5 ∧
    batch_generate_ids_tx (⟨1, 0, 0⟩ : MerchantIdAccount) (⟨1, 0, 0, 3, 0, [0]⟩ : IdChunk) 5 =
      (.error .NoAvailableId, (⟨1, 0, 0⟩ : MerchantIdAccount), (⟨1, 0, 0, 3, 0, [0]⟩ : IdChunk)) ∧
    (batch_generate_ids_tx (⟨1, 0, 0⟩ : MerchantIdAccount) (⟨1, 0, 0, 3, 0, [0]⟩ : IdChunk) 4).1 =
      .ok [0, 1, 2, 3] := by
  refine ⟨by decide, ?_, ?_⟩
  · exact (c4_batch_generate_atomic (⟨1, 0, 0⟩ : MerchantIdAccount)
      (⟨1, 0, 0, 3, 0, [0]⟩ : IdChunk) 5 (by decide) (by decide) (by decide)
      (by decide) (by decide)).1 (by decide)
  · have h := ((c4_batch_generate_atomic (⟨1, 0, 0⟩ : MerchantIdAccount)
      (⟨1, 0, 0, 3, 0, [0]⟩ : IdChunk) 4 (by decide) (by decide) (by decide)
      (by decide) (by decide)).2 (by decide)).1
    rw [h]
    rfl

/-! ## Price bucket functions (`src/instructions/price_index.rs` lines 8-49)

Both functions run the loop `while temp > 1 { temp >>= 1; n += 1 }`, i.e.
`n = floor(log2(price))`, then shift.  `1u64 << n` is a u64 shift: Rust
masks the shift amount by the bit width in release builds (and panics in
overflow-checked builds); the mask is modelled explicitly, and at the one
input where it fires (`price ≥ 2^63`, where `n + 1 = 64`) an
overflow-checked build would panic instead — under either semantics the
mathematical value `2^64` is never returned.
-/

def floorLog2 (temp : Nat) : Nat :=
  if temp > 1 then floorLog2 (temp >>> 1) + 1 else 0
termination_by temp
decreasing_by
  rw [Nat.shiftRight_one]
  omega

def calculate_price_range_start (price : Nat) : Nat :=
  if price = 0 then 0
  else if price = 1 then 1
  else 1 <<< (floorLog2 price % 64)

def calculate_price_range_end (price : Nat) : Nat :=
  if price = 0 then 0
  else if price = 1 then 1
  else 1 <<< ((floorLog2 price + 1) % 64)

theorem floorLog2_eq_log2 (n : Nat) : floorLog2 n = Nat.log2 n := by
  induction n using Nat.strong_induction_on with
  | _ n ih =>
    rw [floorLog2, Nat.log2]
    by_cases h : n ≥ 2
    · rw [if_pos (by omega), if_pos h, Nat.shiftRight_one, ih (n / 2) (by omega)]
    · rw [if_neg (by omega), if_neg h]

theorem floorLog2_two_pow (n : Nat) : floorLog2 (2 ^ n) = n := by
  induction n with
  | zero =>
    rw [floorLog2]
    simp
  | succ n ih =>
    rw [floorLog2, if_pos (by exact Nat.one_lt_two_pow (by omega)), Nat.shiftRight_one]
    have h2 : 2 ^ (n + 1) / 2 = 2 ^ n := by
      rw [Nat.pow_succ]
      omega
    rw [h2, ih]

/-- C7 counterexample: at `price = 2^63` (a valid u64 value `≥ 2`) the
claimed identity `calculate_price_range_end(price) = 2^(⌊log2 price⌋+1) =
2^64` fails: `2^64` is not representable in u64, the masked shift yields
`1` (an overflow-checked build panics at the same spot), and consequently
`price < range_end` fails as well. -/
theorem c7_range_end_overflow_counterexample :
    2 ≤ 2 ^ 63 ∧
    calculate_price_range_end (2 ^ 63) = 1 ∧
    calculate_price_range_end (2 ^ 63) ≠ 2 ^ (Nat.log2 (2 ^ 63) + 1) ∧
    ¬ 2 ^ 63 < calculate_price_range_end (2 ^ 63) := by
  have hlog : Nat.log2 (2 ^ 63) = 63 := by
    rw [← floorLog2_eq_log2, floorLog2_two_pow]
  have hend : calculate_price_range_end (2 ^ 63) = 1 := by
    unfold calculate_price_range_end
    rw [if_neg (by positivity), if_neg (by norm_num), floorLog2_two_pow, Nat.one_shiftLeft]
  refine ⟨by norm_num, hend, ?_, by rw [hend]; norm_num⟩
  rw [hend, hlog]
  norm_num

/-- C7 amended: 0 and 1 are explicit edge cases (both functions return the
input); for every u64 price `≥ 2`, `calculate_price_range_start` returns
the power of two `2^⌊log2 price⌋ ≤ price`; and restricted to
`price < 2^63` (where the `1u64 << (n+1)` shift cannot overflow)
`calculate_price_range_end` returns `2^(⌊log2 price⌋+1) > price`. -/
theorem c7_price_bucket_functions (price : Nat) (h64 : price < 2 ^ 64) :
    (calculate_price_range_start 0 = 0 ∧ calculate_price_range_end 0 = 0) ∧
    (calculate_price_range_start 1 = 1 ∧ calculate_price_range_end 1 = 1) ∧
    (2 ≤ price →
      calculate_price_range_start price = 2 ^ Nat.log2 price ∧
      2 ^ Nat.log2 price ≤ price ∧
      (price < 2 ^ 63 →
        calculate_price_range_end price = 2 ^ (Nat.log2 price + 1) ∧
        price < 2 ^ (Nat.log2 price + 1))) := by
  refine ⟨⟨rfl, rfl⟩, ⟨rfl, rfl⟩, ?_⟩
  intro h2
  have hle : 2 ^ Nat.log2 price ≤ price := Nat.log2_self_le (by omega)
  have hlt : price < 2 ^ (Nat.log2 price + 1) := Nat.lt_log2_self
  have hlog_le : Nat.log2 price ≤ 63 := by
    by_contra hgt
    have h1 : 2 ^ 64 ≤ 2 ^ Nat.log2 price := Nat.pow_le_pow_right (by omega) (by omega)
    omega
  refine ⟨?_, hle, ?_⟩
  · unfold calculate_price_range_start
    rw [if_neg (by omega), if_neg (by omega), floorLog2_eq_log2,
      Nat.mod_eq_of_lt (by omega), Nat.one_shiftLeft]
  · intro h63
    have hlog_le62 : Nat.log2 price ≤ 62 := by
      by_contra hgt
      have h1 : 2 ^ 63 ≤ 2 ^ Nat.log2 price := Nat.pow_le_pow_right (by omega) (by omega)
      omega
    constructor
    · unfold calculate_price_range_end
      rw [if_neg (by omega), if_neg (by omega), floorLog2_eq_log2,
        Nat.mod_eq_of_lt (by omega), Nat.one_shiftLeft]
    · exact hlt

/-- Witness for C7 at price 15: bucket `[8, 16)`. -/
theorem c7_price_bucket_functions_witness :
    calculate_price_range_start 15 = 8 ∧ calculate_price_range_end 15 = 16 ∧
    (8 : Nat) ≤ 15 ∧ (15 : Nat) < 16 := by
  have e1 : floorLog2 1 = 0 := by
    rw [floorLog2]
    norm_num
  have e3 : floorLog2 3 = 1 := by
    rw [floorLog2]
    norm_num [show (3 : Nat) >>> 1 = 1 from rfl, e1]
  have e7 : floorLog2 7 = 2 := by
    rw [floorLog2]
    norm_num [show (7 : Nat) >>> 1 = 3 from rfl, e3]
  have hlog : Nat.log2 15 = 3 := by
    rw [← floorLog2_eq_log2]
    rw [floorLog2]
    norm_num [show (15 : Nat) >>> 1 = 7 from rfl, e7]
  have h := (c7_price_bucket_functions 15 (by norm_num)).2.2 (by norm_num)
  have hend := (h.2.2 (by norm_num)).1
  rw [hlog] at h hend
  norm_num at h hend
  exact ⟨h.1, hend, by norm_num, by norm_num⟩

/-! ## Price index node split (`split_price_node`, price_index.rs 162-205) -/

/-- Account `PriceIndexNode` (range and id list; the tree-link fields
`left_child`/`right_child`/`parent`/`height`/`bump` are irrelevant to the
claims and omitted). -/
structure PriceIndexNode where
  price_range_start : Nat
  price_range_end : Nat
  product_ids : List Nat
  deriving DecidableEq, Repr

/-- The split-time value heuristic of `split_price_node`:
`estimated_price = (product_id % 1000) + price_range_start` (u64 add). -/
def estimated_price (product_id price_range_start : Nat) : Nat :=
  (product_id % 1000 + price_range_start) % 2 ^ 64

/-- The move loop of `split_price_node`: for each collected id, `retain`
drops it from the old node's list and it is pushed onto the new node's
list. -/
def move_products : List Nat → List Nat → List Nat → List Nat × List Nat
  | [], old, new => (old, new)
  | pid :: rest, old, new =>
      move_products rest (old.filter (fun x => x != pid)) (new ++ [pid])

/-- Instruction `split_price_node`: computes `split_point = (S + E) / 2`
(u64 add), shrinks the original node to end at the split point,
initializes the new node over `[split_point + 1, E]` with an empty list,
collects every id whose `estimated_price` exceeds the split point, and
moves those ids from the old node to the new one. -/
def split_price_node (node : PriceIndexNode)
    (price_range_start price_range_end : Nat) : PriceIndexNode × PriceIndexNode :=
  ({ node with
      price_range_end := ((price_range_start + price_range_end) % 2 ^ 64) / 2,
      product_ids := (move_products (node.product_ids.filter (fun pid => estimated_price pid price_range_start > ((price_range_start + price_range_end) % 2 ^ 64) / 2)) node.product_ids []).1 },
   { price_range_start := ((price_range_start + price_range_end) % 2 ^ 64) / 2 + 1,
     price_range_end := price_range_end,
     product_ids := (move_products (node.product_ids.filter (fun pid => estimated_price pid price_range_start > ((price_range_start + price_range_end) % 2 ^ 64) / 2)) node.product_ids []).2 })

/-- The move loop, started on the ids selected by `p` from a
duplicate-free list, splits the list into the unselected ids (kept, in
order) and the selected ids (moved, in order). -/
theorem move_products_spec (p : Nat → Bool) :
    ∀ (toMove old acc : List Nat), old.Nodup → old.filter p = toMove →
    move_products toMove old acc =
      (old.filter (fun x => ! p x), acc ++ old.filter p) := by
  intro toMove
  induction toMove with
  | nil =>
    intro old acc hnd hfi
    have hall : ∀ a ∈ old, ¬ p a := List.filter_eq_nil_iff.mp hfi
    have hid : old.filter (fun x => ! p x) = old :=
      List.filter_eq_self.mpr (fun a ha => by simp [hall a ha])
    simp [move_products, hfi, hid]
  | cons pid rest ih =>
    intro old acc hnd hfi
    have hmem : pid ∈ old.filter p := by rw [hfi]; exact List.mem_cons_self _ _
    have hppid : p pid = true := (List.mem_filter.mp hmem).2
    have hndf : (old.filter p).Nodup := hnd.filter p
    have hpid_rest : pid ∉ rest := by
      rw [hfi] at hndf
      exact (List.nodup_cons.mp hndf).1
    have hcomm : (old.filter (fun x => x != pid)).filter p =
        (old.filter p).filter (fun x => x != pid) := by
      rw [List.filter_filter, List.filter_filter]
      exact List.filter_congr (fun a _ => Bool.and_comm _ _)
    have hrid : rest.filter (fun x => x != pid) = rest :=
      List.filter_eq_self.mpr (fun a ha => by
        have hane : a ≠ pid := fun heq => hpid_rest (heq ▸ ha)
        simp [hane])
    have hrest : (old.filter (fun x => x != pid)).filter p = rest := by
      rw [hcomm, hfi, List.filter_cons]
      simp only [bne_self_eq_false, Bool.false_eq_true, if_false]
      exact hrid
    have hnotp : (old.filter (fun x => x != pid)).filter (fun x => ! p x) =
        old.filter (fun x => ! p x) := by
      rw [List.filter_filter]
      apply List.filter_congr
      intro a _
      by_cases hpa : p a = true
      · simp [hpa]
      · have hpa' : p a = false := by
          revert hpa
          cases p a <;> simp
        have hane : a ≠ pid := fun heq => by
          rw [heq, hppid] at hpa'
          cases hpa'
        simp [hpa', hane]
    simp only [move_products]
    rw [ih (old.filter (fun x => x != pid)) (acc ++ [pid]) (hnd.filter _) hrest]
    rw [hnotp, hrest, hfi]
    simp

/-- C6: splitting a node over `[S, E]` (with `S + E` within u64 and a
duplicate-free id list) leaves the original node over `[S, M]` with
`M = (S+E)/2`, creates the new node over `[M+1, E]`, and partitions the
original ids between the two nodes: every id lands in exactly one node,
none is lost, none is duplicated (the concatenation of the two resulting
lists is a permutation of the original list). -/
theorem c6_split_price_node_partition (node : PriceIndexNode)
    (hnd : node.product_ids.Nodup)
    (hof : node.price_range_start + node.price_range_end < 2 ^ 64) :
    (split_price_node node node.price_range_start node.price_range_end).1.price_range_start =
      node.price_range_start ∧
    (split_price_node node node.price_range_start node.price_range_end).1.price_range_end =
      (node.price_range_start + node.price_range_end) / 2 ∧
    (split_price_node node node.price_range_start node.price_range_end).2.price_range_start =
      (node.price_range_start + node.price_range_end) / 2 + 1 ∧
    (split_price_node node node.price_range_start node.price_range_end).2.price_range_end =
      node.price_range_end ∧
    (∀ pid, pid ∈ node.product_ids ↔
      (pid ∈ (split_price_node node node.price_range_start node.price_range_end).1.product_ids ∨
       pid ∈ (split_price_node node node.price_range_start node.price_range_end).2.product_ids)) ∧
    (∀ pid, ¬ (pid ∈ (split_price_node node node.price_range_start node.price_range_end).1.product_ids ∧
       pid ∈ (split_price_node node node.price_range_start node.price_range_end).2.product_ids)) ∧
    ((split_price_node node node.price_range_start node.price_range_end).1.product_ids ++
      (split_price_node node node.price_range_start node.price_range_end).2.product_ids).Perm
      node.product_ids := by
  have hmod : (node.price_range_start + node.price_range_end) % 2 ^ 64 =
      node.price_range_start + node.price_range_end := Nat.mod_eq_of_lt hof
  have hmv := move_products_spec
    (fun pid => estimated_price pid node.price_range_start >
      ((node.price_range_start + node.price_range_end) % 2 ^ 64) / 2)
    (node.product_ids.filter (fun pid => estimated_price pid node.price_range_start >
      ((node.price_range_start + node.price_range_end) % 2 ^ 64) / 2))
    node.product_ids [] hnd rfl
  refine ⟨rfl, by simp only [split_price_node, hmod], by simp only [split_price_node, hmod], rfl, ?_, ?_, ?_⟩
  · intro pid
    simp only [split_price_node, hmv, List.nil_append, List.mem_filter,
      decide_eq_true_eq, Bool.not_eq_true', decide_eq_false_iff_not, not_lt]
    have htot := le_or_lt (estimated_price pid node.price_range_start)
      ((node.price_range_start + node.price_range_end) % 2 ^ 64 / 2)
    constructor
    · intro hin
      rcases htot with h | h
      · exact Or.inl ⟨hin, h⟩
      · exact Or.inr ⟨hin, h⟩
    · rintro (⟨hin, h⟩ | ⟨hin, h⟩) <;> exact hin
  · intro pid
    simp only [split_price_node, hmv, List.nil_append, List.mem_filter,
      decide_eq_true_eq, Bool.not_eq_true', decide_eq_false_iff_not, not_lt]
    rintro ⟨⟨hin1, h1⟩, ⟨hin2, h2⟩⟩
    omega
  · simp only [split_price_node, hmv, List.nil_append]
    exact (List.perm_append_comm).trans (List.filter_append_perm _ _)

/-- Witness for C6 at a node over `[0, 2000]` holding ids `[1, 1500, 7]`:
estimated prices 1, 500, 7 against split point 1000 — id 1500 has
estimated price 500 and stays, all ids land in exactly one half. -/
theorem c6_split_price_node_partition_witness :
    (⟨0, 2000, [1, 1500, 7]⟩ : PriceIndexNode).product_ids.Nodup ∧
    ((split_price_node (⟨0, 2000, [1, 1500, 7]⟩ : PriceIndexNode) 0 2000).1.product_ids ++
      (split_price_node (⟨0, 2000, [1, 1500, 7]⟩ : PriceIndexNode) 0 2000).2.product_ids).Perm
      [1, 1500, 7] := by
  refine ⟨by decide, ?_⟩
  exact (c6_split_price_node_partition (⟨0, 2000, [1, 1500, 7]⟩ : PriceIndexNode)
    (by decide) (by norm_num)).2.2.2.2.2.2

/-! ## Bloom filter utility (`src/utils/bloom.rs`, `src/utils/hash.rs`) -/

/-- Constant `BLOOM_FILTER_SIZE: usize = 256`. -/
def BLOOM_FILTER_SIZE : Nat := 256

/-- Constant `BLOOM_HASH_COUNT: u8 = 3`. -/
def BLOOM_HASH_COUNT : Nat := 3

/-- Function `multi_hash` (splitmix64-style mixer, u64 wrapping
multiplications and xor-shifts). -/
def multi_hash (data seed : Nat) : Nat :=
  let h1 := data ^^^ seed
  let h2 := (h1 * 0x9e3779b97f4a7c15) % 2 ^ 64
  let h3 := h2 ^^^ (h2 >>> 30)
  let h4 := (h3 * 0xbf58476d1ce4e5b9) % 2 ^ 64
  let h5 := h4 ^^^ (h4 >>> 27)
  let h6 := (h5 * 0x94d049bb133111eb) % 2 ^ 64
  h6 ^^^ (h6 >>> 31)

/-- Bit position probed for `value` with hash seed `i`:
`multi_hash(value, i) % (BLOOM_FILTER_SIZE * 8)`. -/
def bloom_bit_index (value i : Nat) : Nat :=
  multi_hash value i % (BLOOM_FILTER_SIZE * 8)

/-- One iteration of `BloomFilter::add`:
`filter[byte_index] |= 1 << bit_offset`. -/
def bloom_set_bit (filter : List Nat) (bit_index : Nat) : List Nat :=
  filter.set (bit_index / 8) (setBitByte (filter.getD (bit_index / 8) 0) (bit_index % 8))

/-- One probe of `BloomFilter::might_contain`:
`filter[byte_index] & (1 << bit_offset) != 0`. -/
def bloom_get_bit (filter : List Nat) (bit_index : Nat) : Bool :=
  getBitByte (filter.getD (bit_index / 8) 0) (bit_index % 8)

/-- Function `BloomFilter::add`: sets the `BLOOM_HASH_COUNT` probe bits. -/
def bloom_add (filter : List Nat) (value : Nat) : List Nat :=
  (List.range BLOOM_HASH_COUNT).foldl
    (fun f i => bloom_set_bit f (bloom_bit_index value i)) filter

/-- Function `BloomFilter::might_contain`: true iff all
`BLOOM_HASH_COUNT` probe bits are set (the Rust loop returns `false` at
the first clear bit). -/
def bloom_might_contain (filter : List Nat) (value : Nat) : Bool :=
  (List.range BLOOM_HASH_COUNT).all
    (fun i => bloom_get_bit filter (bloom_bit_index value i))

theorem bloom_set_bit_length (f : List Nat) (b : Nat) :
    (bloom_set_bit f b).length = f.length := by
  unfold bloom_set_bit
  exact List.length_set f _ _

theorem getBitByte_setBitByte_mono (b j k : Nat) (h : getBitByte b j = true) :
    getBitByte (setBitByte b k) j = true := by
  by_cases hjk : j = k
  · rw [hjk]
    exact getBitByte_setBitByte_self b k
  · rw [getBitByte_setBitByte_ne b j k hjk]
    exact h

theorem bloom_get_bit_set_self (f : List Nat) (b : Nat) (h : b / 8 < f.length) :
    bloom_get_bit (bloom_set_bit f b) b = true := by
  unfold bloom_get_bit bloom_set_bit
  rw [getD_set_eq_ite, if_pos ⟨rfl, h⟩, getBitByte_setBitByte_self]

theorem bloom_get_bit_set_mono (f : List Nat) (b q : Nat)
    (h : bloom_get_bit f q = true) :
    bloom_get_bit (bloom_set_bit f b) q = true := by
  unfold bloom_get_bit bloom_set_bit
  unfold bloom_get_bit at h
  rw [getD_set_eq_ite]
  by_cases hsame : b / 8 = q / 8 ∧ b / 8 < f.length
  · rw [if_pos hsame]
    apply getBitByte_setBitByte_mono
    rw [hsame.1]
    exact h
  · rw [if_neg hsame]
    exact h

/-- Folding `bloom_set_bit` over any seed list preserves the length, keeps
every already-set bit set, and ends with all the probed bits set. -/
theorem bloom_fold_spec (v : Nat) :
    ∀ (is : List Nat) (f : List Nat),
    ((is.foldl (fun g i => bloom_set_bit g (bloom_bit_index v i)) f).length = f.length) ∧
    (∀ q, bloom_get_bit f q = true →
      bloom_get_bit (is.foldl (fun g i => bloom_set_bit g (bloom_bit_index v i)) f) q = true) ∧
    (∀ i ∈ is, bloom_bit_index v i / 8 < f.length →
      bloom_get_bit (is.foldl (fun g i => bloom_set_bit g (bloom_bit_index v i)) f)
        (bloom_bit_index v i) = true) := by
  intro is
  induction is with
  | nil => exact fun f => ⟨rfl, fun q h => h, fun i hi => absurd hi (List.not_mem_nil i)⟩
  | cons i rest ih =>
    intro f
    have ihf := ih (bloom_set_bit f (bloom_bit_index v i))
    have hlen := bloom_set_bit_length f (bloom_bit_index v i)
    refine ⟨by simpa [List.foldl_cons, hlen] using ihf.1, ?_, ?_⟩
    · intro q hq
      simp only [List.foldl_cons]
      exact ihf.2.1 q (bloom_get_bit_set_mono f _ q hq)
    · intro j hj hjlt
      simp only [List.foldl_cons]
      rcases List.mem_cons.mp hj with rfl | hrest
      · exact ihf.2.1 _ (bloom_get_bit_set_self f _ hjlt)
      · exact ihf.2.2 j hrest (by rw [hlen]; exact hjlt)

/-- C9: the Bloom filter utility has no false negatives and is monotone:
adding `v` makes `might_contain v` true, and `add` only sets bits, so any
value reported present stays reported present after further additions. -/
theorem c9_bloom_no_false_negatives_monotone (filter : List Nat) (v w : Nat)
    (hlen : filter.length = BLOOM_FILTER_SIZE) :
    bloom_might_contain (bloom_add filter v) v = true ∧
    (bloom_might_contain filter w = true →
      bloom_might_contain (bloom_add filter v) w = true) := by
  have hidx : ∀ u i : Nat, bloom_bit_index u i / 8 < filter.length := by
    intro u i
    rw [hlen]
    have h1 : bloom_bit_index u i < BLOOM_FILTER_SIZE * 8 :=
      Nat.mod_lt _ (by norm_num [BLOOM_FILTER_SIZE])
    omega
  constructor
  · rw [bloom_might_contain, List.all_eq_true]
    intro i hi
    exact (bloom_fold_spec v (List.range BLOOM_HASH_COUNT) filter).2.2 i hi (hidx v i)
  · intro hw
    rw [bloom_might_contain, List.all_eq_true]
    rw [bloom_might_contain, List.all_eq_true] at hw
    intro i hi
    exact (bloom_fold_spec v (List.range BLOOM_HASH_COUNT) filter).2.1 _ (hw i hi)

/-- Witness for C9 on the empty filter with v = 42, w = 7: after adding 7
then 42, both remain reported present. -/
theorem c9_bloom_no_false_negatives_monotone_witness :
    (List.replicate 256 0 : List Nat).length = BLOOM_FILTER_SIZE ∧
    bloom_might_contain (bloom_add (List.replicate 256 0) 42) 42 = true ∧
    (bloom_add (List.replicate 256 0) 7).length = BLOOM_FILTER_SIZE ∧
    bloom_might_contain (bloom_add (List.replicate 256 0) 7) 7 = true ∧
    bloom_might_contain (bloom_add (bloom_add (List.replicate 256 0) 7) 42) 7 = true := by
  have hlen : (List.replicate 256 0 : List Nat).length = BLOOM_FILTER_SIZE := by
    simp [BLOOM_FILTER_SIZE]
  have h1 := (c9_bloom_no_false_negatives_monotone (List.replicate 256 0) 42 7 hlen).1
  have h2 := (c9_bloom_no_false_negatives_monotone (List.replicate 256 0) 7 7 hlen).1
  have hlen2 : (bloom_add (List.replicate 256 0) 7).length = BLOOM_FILTER_SIZE := by
    have := (bloom_fold_spec 7 (List.range BLOOM_HASH_COUNT) (List.replicate 256 0)).1
    rw [bloom_add, this, hlen]
  have h3 := (c9_bloom_no_false_negatives_monotone
    (bloom_add (List.replicate 256 0) 7) 42 7 hlen2).2 h2
  exact ⟨hlen, h1, hlen2, h2, h3⟩

/-! ## Keyword index (`src/state/keyword_index.rs`,
`src/instructions/keyword_index.rs`) -/

/-- Constant `MAX_PRODUCTS_PER_SHARD: usize = 100`. -/
def MAX_PRODUCTS_PER_SHARD : Nat := 100

/-- Constant `BLOOM_SUMMARY_SIZE: usize = 32`. -/
def BLOOM_SUMMARY_SIZE : Nat := 32

/-- Account `KeywordRoot` (the pubkey fields `first_shard`/`last_shard`
and `bump` are irrelevant to the claims and omitted). -/
structure KeywordRoot where
  keyword : String
  total_shards : Nat
  total_products : Nat
  bloom_filter : List Nat
  deriving DecidableEq, Repr

/-- Account `KeywordShard` (the pubkey fields `prev_shard`/`next_shard`
and `bump` are irrelevant to the claims and omitted). -/
structure KeywordShard where
  keyword : String
  shard_index : Nat
  product_ids : List Nat
  min_id : Nat
  max_id : Nat
  bloom_summary : List Nat
  deriving DecidableEq, Repr

/-- Method `KeywordRoot::might_contain`: probes the three bits
`id % 2048`, `id*31 % 2048`, `id*37 % 2048` (u64 multiplications) of the
root's 256-byte filter; false as soon as one is clear. -/
def KeywordRoot.might_contain (root : KeywordRoot) (product_id : Nat) : Bool :=
  [product_id % (BLOOM_FILTER_SIZE * 8),
   product_id * 31 % 2 ^ 64 % (BLOOM_FILTER_SIZE * 8),
   product_id * 37 % 2 ^ 64 % (BLOOM_FILTER_SIZE * 8)].all
    (fun h => getBitByte (root.bloom_filter.getD (h / 8) 0) (h % 8))

/-- Method `KeywordShard::update_bloom_summary`: sets (or clears) the two
bits `id % 256` and `id*31 % 256` of the 32-byte summary filter. -/
def KeywordShard.update_bloom_summary (s : KeywordShard) (product_id : Nat)
    (adding : Bool) : KeywordShard :=
  [product_id % (BLOOM_SUMMARY_SIZE * 8),
   product_id * 31 % 2 ^ 64 % (BLOOM_SUMMARY_SIZE * 8)].foldl
    (fun sh h =>
      let b := if adding then setBitByte (sh.bloom_summary.getD (h / 8) 0) (h % 8) else clearBitByte (sh.bloom_summary.getD (h / 8) 0) (h % 8)
      { sh with bloom_summary := sh.bloom_summary.set (h / 8) b }) s

/-- Method `KeywordShard::update_min_max` (fresh shard is sentinelled with
`min_id = u64::MAX`). -/
def KeywordShard.update_min_max (s : KeywordShard) (product_id : Nat) : KeywordShard :=
  if s.min_id = 2 ^ 64 - 1 then { s with min_id := product_id, max_id := product_id }
  else { s with min_id := Nat.min s.min_id product_id,
                max_id := Nat.max s.max_id product_id }

/-- Method `KeywordShard::recalculate_min_max`. -/
def KeywordShard.recalculate_min_max (s : KeywordShard) : KeywordShard :=
  if s.product_ids.isEmpty then { s with min_id := 2 ^ 64 - 1, max_id := 0 }
  else { s with min_id := (s.product_ids.min?).getD 0,
                max_id := (s.product_ids.max?).getD 0 }

/-- Method `KeywordShard::recalculate_bloom_summary`: rebuilds the summary
filter from scratch over the remaining ids. -/
def KeywordShard.recalculate_bloom_summary (s : KeywordShard) : KeywordShard :=
  s.product_ids.foldl (fun sh pid => sh.update_bloom_summary pid true)
    { s with bloom_summary := List.replicate BLOOM_SUMMARY_SIZE 0 }

/-- Method `KeywordShard::add_product`: requires the shard not full
(`ShardIsFull` otherwise, checked BEFORE the duplicate check), then
appends when the id is not yet listed, updating min/max and the summary
filter. -/
def KeywordShard.add_product (s : KeywordShard) (product_id : Nat) :
    Except ErrorCode KeywordShard :=
  if s.product_ids.length < MAX_PRODUCTS_PER_SHARD then
    if s.product_ids.contains product_id then .ok s
    else .ok ((({ s with product_ids := s.product_ids ++ [product_id] }).update_min_max product_id).update_bloom_summary product_id true)
  else .error .ShardIsFull

/-- Method `KeywordShard::remove_product`: removes the first occurrence
when present, recalculating min/max and summary filter; returns whether
an id was removed. -/
def KeywordShard.remove_product (s : KeywordShard) (product_id : Nat) :
    KeywordShard × Bool :=
  match s.product_ids.findIdx? (fun x => x == product_id) with
  | some index =>
      ((({ s with product_ids := s.product_ids.eraseIdx index }).recalculate_min_max).recalculate_bloom_summary, true)
  | none => (s, false)

/-- Instruction `add_product_to_keyword_index_if_needed`
(keyword_index.rs lines 374-427): lazily initializes a fresh root/shard
(recognized by an empty keyword string), no-ops on a duplicate id, errors
with `ShardIsFull` at 1000 ids, else pushes the id and bumps
`total_products` — no Bloom bit is set on either filter. -/
def add_product_to_keyword_index_if_needed (root : KeywordRoot)
    (shard : KeywordShard) (keyword : String) (product_id : Nat) :
    Except ErrorCode (KeywordRoot × KeywordShard) :=
  let root1 := if root.keyword = "" then
      { keyword := keyword, total_shards := 1, total_products := 0,
        bloom_filter := List.replicate 256 0 } else root
  let shard1 := if shard.keyword = "" then
      { keyword := keyword, shard_index := 0, product_ids := [],
        min_id := 0, max_id := 0, bloom_summary := List.replicate 32 0 } else shard
  if shard1.product_ids.contains product_id then .ok (root1, shard1)
  else if shard1.product_ids.length ≥ 1000 then .error .ShardIsFull
  else .ok ({ root1 with total_products := (root1.total_products + 1) % 2 ^ 32 },
            { shard1 with product_ids := shard1.product_ids ++ [product_id] })

/-- Instruction `remove_product_from_keyword_index`
(keyword_index.rs lines 100-131): validates the keyword, then consults
the root Bloom filter as a fast negative check — returning `Ok` without
touching the shard when it reports "definitely absent" — else removes
from the shard and decrements `total_products` (saturating). -/
def remove_product_from_keyword_index (root : KeywordRoot)
    (shard : KeywordShard) (keyword : String) (product_id : Nat) :
    Except ErrorCode (KeywordRoot × KeywordShard) :=
  if root.keyword = keyword then
    if shard.keyword = keyword then
      if root.might_contain product_id then
        match shard.remove_product product_id with
        | (shard2, true) =>
            .ok ({ root with total_products := root.total_products - 1 }, shard2)
        | (shard2, false) => .ok (root, shard2)
      else .ok (root, shard)
    else .error .InvalidKeyword
  else .error .InvalidKeyword

/-- Zero-initialized root account as created by `init_if_needed`. -/
def phoneRoot0 : KeywordRoot :=
  { keyword := "", total_shards := 0, total_products := 0,
    bloom_filter := List.replicate 256 0 }

/-- Zero-initialized shard account as created by `init_if_needed`. -/
def phoneShard0 : KeywordShard :=
  { keyword := "", shard_index := 0, product_ids := [],
    min_id := 0, max_id := 0, bloom_summary := List.replicate 32 0 }

/-- C2 (code-bug evidence): for keyword "phone" from a freshly initialized
root and shard 0, inserting ids 1, 2, 3 through
`add_product_to_keyword_index_if_needed` yields `total_products = 3` but
sets NO bit in either the root Bloom filter or the shard summary filter
(the instruction never calls `KeywordRoot::update_bloom_filter` or
`KeywordShard::add_product`); consequently
`remove_product_from_keyword_index` for id 2 hits the fast-negative
Bloom check (`might_contain 2 = false` on the all-zero filter) and
returns with both accounts unchanged: `total_products` stays 3 and the
shard list stays `[1, 2, 3]` — not 2 and `[1, 3]` as the spec describes. -/
theorem c2_insert_sets_no_bloom_bits_and_remove_is_noop :
    add_product_to_keyword_index_if_needed phoneRoot0 phoneShard0 "phone" 1 =
      .ok (⟨"phone", 1, 1, List.replicate 256 0⟩,
           ⟨"phone", 0, [1], 0, 0, List.replicate 32 0⟩) ∧
    add_product_to_keyword_index_if_needed ⟨"phone", 1, 1, List.replicate 256 0⟩
        ⟨"phone", 0, [1], 0, 0, List.replicate 32 0⟩ "phone" 2 =
      .ok (⟨"phone", 1, 2, List.replicate 256 0⟩,
           ⟨"phone", 0, [1, 2], 0, 0, List.replicate 32 0⟩) ∧
    add_product_to_keyword_index_if_needed ⟨"phone", 1, 2, List.replicate 256 0⟩
        ⟨"phone", 0, [1, 2], 0, 0, List.replicate 32 0⟩ "phone" 3 =
      .ok (⟨"phone", 1, 3, List.replicate 256 0⟩,
           ⟨"phone", 0, [1, 2, 3], 0, 0, List.replicate 32 0⟩) ∧
    KeywordRoot.might_contain ⟨"phone", 1, 3, List.replicate 256 0⟩ 2 = false ∧
    remove_product_from_keyword_index ⟨"phone", 1, 3, List.replicate 256 0⟩
        ⟨"phone", 0, [1, 2, 3], 0, 0, List.replicate 32 0⟩ "phone" 2 =
      .ok (⟨"phone", 1, 3, List.replicate 256 0⟩,
           ⟨"phone", 0, [1, 2, 3], 0, 0, List.replicate 32 0⟩) :=
  ⟨rfl, rfl, rfl, rfl, rfl⟩

/-- C10: in `KeywordShard::add_product` the capacity check precedes the
duplicate check: a shard already holding `MAX_PRODUCTS_PER_SHARD` (100)
ids returns `ShardIsFull` even for an id it already lists, while on a
non-full shard a duplicate insertion is a silent no-op. -/
theorem c10_capacity_check_precedes_duplicate_check (s : KeywordShard) (pid : Nat) :
    (s.product_ids.length = MAX_PRODUCTS_PER_SHARD → pid ∈ s.product_ids →
      s.add_product pid = .error .ShardIsFull) ∧
    (s.product_ids.length < MAX_PRODUCTS_PER_SHARD → pid ∈ s.product_ids →
      s.add_product pid = .ok s) := by
  constructor
  · intro hlen _hmem
    unfold KeywordShard.add_product
    rw [if_neg (by omega)]
  · intro hlen hmem
    unfold KeywordShard.add_product
    rw [if_pos hlen, if_pos (List.elem_eq_true_of_mem hmem)]

/-- Witness for C10: a full shard rejects its own member 5 with
`ShardIsFull`; a one-element shard absorbs the duplicate silently. -/
theorem c10_capacity_check_precedes_duplicate_check_witness :
    (⟨"phone", 0, List.range 100, 0, 99, List.replicate 32 0⟩ : KeywordShard).product_ids.length = MAX_PRODUCTS_PER_SHARD ∧
    (5 : Nat) ∈ (⟨"phone", 0, List.range 100, 0, 99, List.replicate 32 0⟩ : KeywordShard).product_ids ∧
    KeywordShard.add_product ⟨"phone", 0, List.range 100, 0, 99, List.replicate 32 0⟩ 5 =
      .error .ShardIsFull ∧
    KeywordShard.add_product ⟨"phone", 0, [5], 5, 5, List.replicate 32 0⟩ 5 =
      .ok ⟨"phone", 0, [5], 5, 5, List.replicate 32 0⟩ := by
  refine ⟨by decide, by decide, ?_, ?_⟩
  · exact (c10_capacity_check_precedes_duplicate_check
      ⟨"phone", 0, List.range 100, 0, 99, List.replicate 32 0⟩ 5).1 (by decide) (by decide)
  · exact (c10_capacity_check_precedes_duplicate_check
      ⟨"phone", 0, [5], 5, 5, List.replicate 32 0⟩ 5).2 (by decide) (by decide)

/-! ## Sales index top-K cache (`src/state/sales_index.rs`,
`src/instructions/sales_index.rs`) -/

/-- Struct `ProductSales` (the `merchant: Pubkey` field is irrelevant to
the claims and omitted). -/
structure ProductSales where
  product_id : Nat
  name : String
  price : Nat
  sales : Nat
  last_update : Int
  deriving DecidableEq, Repr, Inhabited

/-- Account `SalesIndexNode` (the tree-link fields
`left_child`/`right_child`/`parent`/`height`/`bump` are irrelevant to the
claims and omitted). -/
structure SalesIndexNode where
  sales_range_start : Nat
  sales_range_end : Nat
  product_ids : List Nat
  top_items : List ProductSales
  deriving DecidableEq, Repr

/-- Rust `slice::binary_search_by` (`Ok(mid)` on an `Equal` comparator
result, `Err(left)` when the window closes), with the loop compiled onto
a structural fuel counter that starts at `len ≥ right - left` and
decreases every iteration while the window shrinks. -/
def binary_search_loop (f : ProductSales → Ordering) (l : List ProductSales) :
    Nat → Nat → Nat → Sum Nat Nat
  | 0, left, _right => Sum.inr left
  | fuel + 1, left, right =>
    if left < right then
      if f (l.getD (left + (right - left) / 2) default) = .lt then
        binary_search_loop f l fuel (left + (right - left) / 2 + 1) right
      else if f (l.getD (left + (right - left) / 2) default) = .gt then
        binary_search_loop f l fuel left (left + (right - left) / 2)
      else Sum.inl (left + (right - left) / 2)
    else Sum.inr left

def binary_search_by (f : ProductSales → Ordering) (l : List ProductSales) : Sum Nat Nat :=
  binary_search_loop f l l.length 0 l.length

/-- The comparator `|item| item.sales.cmp(&sales).reverse()`. -/
def cmp_sales_rev (item : ProductSales) (sales : Nat) : Ordering :=
  (compare item.sales sales).swap

/-- `Result::unwrap_or_else(|pos| pos)` applied to the search result. -/
def unwrap_pos : Sum Nat Nat → Nat
  | Sum.inl i => i
  | Sum.inr p => p

/-- Method `SalesIndexNode::remove_from_top_items`: removes the first
entry with the given product id, if any. -/
def SalesIndexNode.remove_from_top_items (node : SalesIndexNode)
    (product_id : Nat) : SalesIndexNode :=
  match node.top_items.findIdx? (fun item => item.product_id == product_id) with
  | some index => { node with top_items := node.top_items.eraseIdx index }
  | none => node

/-- Method `SalesIndexNode::update_top_items`: removes any existing entry
for the id, inserts a fresh entry at the position found by binary search
on sales descending, and truncates to the 20-entry cap.  The clock value
`now` is passed explicitly. -/
def SalesIndexNode.update_top_items (node : SalesIndexNode)
    (product_id sales : Nat) (now : Int) : SalesIndexNode :=
  let fresh : ProductSales :=
    { product_id := product_id, name := "", price := 0, sales := sales, last_update := now }
  let node1 := node.remove_from_top_items product_id
  let insert_pos := unwrap_pos
    (binary_search_by (fun item => cmp_sales_rev item sales) node1.top_items)
  let node2 := { node1 with top_items := node1.top_items.insertIdx insert_pos fresh }
  if node2.top_items.length > 20 then { node2 with top_items := node2.top_items.take 20 }
  else node2

/-- Method `SalesIndexNode::add_product`: validates the sales range, then
appends the id (if new) and refreshes the top-items cache. -/
def SalesIndexNode.add_product (node : SalesIndexNode) (product_id sales : Nat)
    (now : Int) : Except ErrorCode SalesIndexNode :=
  if sales ≥ node.sales_range_start ∧ sales ≤ node.sales_range_end then
    if node.product_ids.contains product_id then .ok node
    else .ok (({ node with product_ids := node.product_ids ++ [product_id] }).update_top_items product_id sales now)
  else .error .InvalidSalesRange

/-- Method `SalesIndexNode::remove_product`. -/
def SalesIndexNode.remove_product (node : SalesIndexNode) (product_id : Nat) :
    SalesIndexNode × Bool :=
  match node.product_ids.findIdx? (fun x => x == product_id) with
  | some index =>
      (({ node with product_ids := node.product_ids.eraseIdx index }).remove_from_top_items product_id, true)
  | none => (node, false)

/-- Method `SalesIndexNode::update_product_sales`. -/
def SalesIndexNode.update_product_sales (node : SalesIndexNode)
    (product_id new_sales : Nat) (now : Int) : SalesIndexNode :=
  if node.product_ids.contains product_id then
    node.update_top_items product_id new_sales now
  else node

/-- Function `update_top_sales_items` (instructions/sales_index.rs lines
413-437), the insert-path update: pushes a fresh entry, re-sorts the
whole list by sales descending (`sort_by`, a stable sort, modelled by
`mergeSort`), and truncates to the 100-entry cap. -/
def update_top_sales_items (top_items : List ProductSales)
    (product_id sales : Nat) (now : Int) : List ProductSales :=
  let pushed := top_items ++
    [{ product_id := product_id, name := "", price := 0, sales := sales, last_update := now }]
  let sorted := pushed.mergeSort (fun a b => decide (b.sales ≤ a.sales))
  if sorted.length > 100 then sorted.take 100 else sorted

/-- The invariant of the claim: `top_items` is sorted descending by the
`sales` field. -/
def sortedDesc (l : List ProductSales) : Prop :=
  l.Pairwise (fun a b => b.sales ≤ a.sales)

theorem sortedDesc_getD_mono (l : List ProductSales) (h : sortedDesc l)
    (i j : Nat) (hij : i ≤ j) (hj : j < l.length) :
    (l.getD j default).sales ≤ (l.getD i default).sales := by
  rcases Nat.eq_or_lt_of_le hij with rfl | hlt
  · exact Nat.le_refl _
  · have hi : i < l.length := by omega
    have hr := List.pairwise_iff_getElem.mp h i j hi hj hlt
    rw [List.getD_eq_getElem?_getD, List.getD_eq_getElem?_getD,
      List.getElem?_eq_getElem hi, List.getElem?_eq_getElem hj]
    simpa using hr

theorem sortedDesc_sublist {l1 l2 : List ProductSales} (hs : l1.Sublist l2)
    (h : sortedDesc l2) : sortedDesc l1 :=
  List.Pairwise.sublist hs h

/-- Bracketing invariant of the binary search loop on a descending-sorted
list with the reversed-sales comparator: everything strictly left of the
final window holds sales above the target, everything at or right of it
holds sales below, and an `Ok` result points at an exact match. -/
theorem binary_search_loop_bracket (s : Nat) (l : List ProductSales)
    (hsort : sortedDesc l) :
    ∀ (fuel left right : Nat),
    right ≤ l.length → left ≤ right → right - left ≤ fuel →
    (∀ i, i < left → s < (l.getD i default).sales) →
    (∀ i, right ≤ i → i < l.length → (l.getD i default).sales < s) →
    (match binary_search_loop (fun item => cmp_sales_rev item s) l fuel left right with
     | Sum.inl pos => pos < l.length ∧ (l.getD pos default).sales = s
     | Sum.inr pos => pos ≤ l.length ∧
         (∀ i, i < pos → s < (l.getD i default).sales) ∧
         (∀ i, pos ≤ i → i < l.length → (l.getD i default).sales < s)) := by
  intro fuel
  induction fuel with
  | zero =>
    intro left right hrl hlr _hspan hinvL hinvR
    have heq : left = right := by omega
    subst heq
    exact ⟨by omega, hinvL, hinvR⟩
  | succ fuel ih =>
    intro left right hrl hlr hspan hinvL hinvR
    by_cases hlt : left < right
    · have hmlt : left + (right - left) / 2 < right := by omega
      have hmge : left ≤ left + (right - left) / 2 := by omega
      have hmlen : left + (right - left) / 2 < l.length := by omega
      simp only [binary_search_loop, if_pos hlt]
      cases hcmp : compare (l.getD (left + (right - left) / 2) default).sales s with
      | lt =>
        -- item.sales < s, reversed comparator yields .gt: shrink right to mid
        have hf : cmp_sales_rev (l.getD (left + (right - left) / 2) default) s = .gt := by
          unfold cmp_sales_rev
          rw [hcmp]
          rfl
        simp only [hf, if_true, if_false]
        apply ih left (left + (right - left) / 2) (by omega) (by omega) (by omega) hinvL
        intro i hi hilen
        have hmono := sortedDesc_getD_mono l hsort (left + (right - left) / 2) i hi hilen
        have hms : (l.getD (left + (right - left) / 2) default).sales < s :=
          Nat.compare_eq_lt.mp hcmp
        omega
      | eq =>
        have hf : cmp_sales_rev (l.getD (left + (right - left) / 2) default) s = .eq := by
          unfold cmp_sales_rev
          rw [hcmp]
          rfl
        simp only [hf, if_true, if_false]
        exact ⟨hmlen, Nat.compare_eq_eq.mp hcmp⟩
      | gt =>
        -- item.sales > s, reversed comparator yields .lt: move left past mid
        have hf : cmp_sales_rev (l.getD (left + (right - left) / 2) default) s = .lt := by
          unfold cmp_sales_rev
          rw [hcmp]
          rfl
        simp only [hf, if_true, if_false]
        apply ih (left + (right - left) / 2 + 1) right hrl (by omega) (by omega)
        · intro i hi
          have hile : i ≤ left + (right - left) / 2 := by omega
          have hmono := sortedDesc_getD_mono l hsort i (left + (right - left) / 2) hile hmlen
          have hms : s < (l.getD (left + (right - left) / 2) default).sales :=
            Nat.compare_eq_gt.mp hcmp
          omega
        · exact hinvR
    · have heq : left = right := by omega
      subst heq
      simp only [binary_search_loop, if_neg hlt]
      exact ⟨by omega, hinvL, hinvR⟩

/-- The position at which `update_top_items` inserts (binary search result
unwrapped) splits a descending-sorted list into a prefix with sales `≥ s`
and a suffix with sales `≤ s`. -/
theorem binary_search_insert_pos (s : Nat) (l : List ProductSales)
    (hsort : sortedDesc l) :
    unwrap_pos (binary_search_by (fun item => cmp_sales_rev item s) l) ≤ l.length ∧
    (∀ i, i < unwrap_pos (binary_search_by (fun item => cmp_sales_rev item s) l) →
      i < l.length → s ≤ (l.getD i default).sales) ∧
    (∀ i, unwrap_pos (binary_search_by (fun item => cmp_sales_rev item s) l) ≤ i →
      i < l.length → (l.getD i default).sales ≤ s) := by
  have hb := binary_search_loop_bracket s l hsort l.length 0 l.length
    (Nat.le_refl _) (Nat.zero_le _) (by omega) (fun i hi => absurd hi (by omega))
    (fun i hi hilen => absurd hilen (by omega))
  unfold binary_search_by
  cases hres : binary_search_loop (fun item => cmp_sales_rev item s) l l.length 0 l.length with
  | inl pos =>
    rw [hres] at hb
    simp only [unwrap_pos]
    obtain ⟨hplen, hpeq⟩ := hb
    refine ⟨by omega, ?_, ?_⟩
    · intro i hi hilen
      have hmono := sortedDesc_getD_mono l hsort i pos (by omega) hplen
      omega
    · intro i hi hilen
      have hmono := sortedDesc_getD_mono l hsort pos i (by omega) hilen
      omega
  | inr pos =>
    rw [hres] at hb
    simp only [unwrap_pos]
    exact ⟨hb.1, fun i hi hilen => Nat.le_of_lt (hb.2.1 i hi),
      fun i hi hilen => Nat.le_of_lt (hb.2.2 i hi hilen)⟩

/-- Inserting an item at a bracketing position keeps the list sorted
descending. -/
theorem sortedDesc_insertIdx :
    ∀ (l : List ProductSales) (item : ProductSales) (pos : Nat),
    sortedDesc l → pos ≤ l.length →
    (∀ i, i < pos → i < l.length → item.sales ≤ (l.getD i default).sales) →
    (∀ i, pos ≤ i → i < l.length → (l.getD i default).sales ≤ item.sales) →
    sortedDesc (l.insertIdx pos item) := by
  intro l
  induction l with
  | nil =>
    intro item pos _ hpos _ _
    have hp0 : pos = 0 := by simpa using hpos
    subst hp0
    exact List.pairwise_singleton _ _
  | cons a l ih =>
    intro item pos hsort hpos hbefore hafter
    cases pos with
    | zero =>
      rw [List.insertIdx_zero]
      apply List.Pairwise.cons
      · intro b hb
        rcases List.mem_cons.mp hb with rfl | hbl
        · exact hafter 0 (Nat.zero_le _) (by simp)
        · obtain ⟨k, hk, hbk⟩ := List.getElem_of_mem hbl
          have := hafter (k + 1) (Nat.zero_le _) (by simpa using hk)
          rw [List.getD_eq_getElem?_getD] at this
          simp only [List.getElem?_cons_succ] at this
          rw [List.getElem?_eq_getElem hk, hbk] at this
          simpa using this
      · exact hsort
    | succ p =>
      rw [List.insertIdx_succ_cons]
      have hsort' : sortedDesc l := (List.pairwise_cons.mp hsort).2
      apply List.Pairwise.cons
      · intro b hb
        rcases (List.mem_insertIdx (by simpa using hpos)).mp hb with rfl | hbl
        · have := hbefore 0 (by omega) (by simp)
          simpa using this
        · exact (List.pairwise_cons.mp hsort).1 b hbl
      · apply ih item p hsort' (by simpa using hpos)
        · intro i hi hilen
          have := hbefore (i + 1) (by omega) (by simpa using hilen)
          simpa using this
        · intro i hi hilen
          have := hafter (i + 1) (by omega) (by simpa using hilen)
          simpa using this

theorem remove_from_top_items_spec (node : SalesIndexNode) (pid : Nat)
    (h : sortedDesc node.top_items) :
    sortedDesc (node.remove_from_top_items pid).top_items ∧
    (node.remove_from_top_items pid).top_items.length ≤ node.top_items.length := by
  unfold SalesIndexNode.remove_from_top_items
  cases hf : node.top_items.findIdx? (fun item => item.product_id == pid) with
  | some index =>
    constructor
    · exact sortedDesc_sublist (List.eraseIdx_sublist _ _) h
    · rw [List.length_eraseIdx]
      split <;> omega
  | none => exact ⟨h, Nat.le_refl _⟩

/-- Unfolding of `update_top_items` down to its `top_items` field. -/
theorem update_top_items_top_items_eq (node : SalesIndexNode) (pid s : Nat) (now : Int) :
    (node.update_top_items pid s now).top_items =
      (if ((node.remove_from_top_items pid).top_items.insertIdx
            (unwrap_pos (binary_search_by (fun item => cmp_sales_rev item s)
              (node.remove_from_top_items pid).top_items))
            ⟨pid, "", 0, s, now⟩).length > 20
       then ((node.remove_from_top_items pid).top_items.insertIdx
            (unwrap_pos (binary_search_by (fun item => cmp_sales_rev item s)
              (node.remove_from_top_items pid).top_items))
            ⟨pid, "", 0, s, now⟩).take 20
       else ((node.remove_from_top_items pid).top_items.insertIdx
            (unwrap_pos (binary_search_by (fun item => cmp_sales_rev item s)
              (node.remove_from_top_items pid).top_items))
            ⟨pid, "", 0, s, now⟩)) := by
  simp only [SalesIndexNode.update_top_items]
  split <;> rfl

/-- Item insertion by `update_top_items` keeps `top_items` sorted
descending and caps its length at 20. -/
theorem update_top_items_spec (node : SalesIndexNode) (pid s : Nat) (now : Int)
    (h : sortedDesc node.top_items) :
    sortedDesc (node.update_top_items pid s now).top_items ∧
    (node.update_top_items pid s now).top_items.length ≤ 20 := by
  have h1 := remove_from_top_items_spec node pid h
  have hb := binary_search_insert_pos s (node.remove_from_top_items pid).top_items h1.1
  have hsorted2 : sortedDesc ((node.remove_from_top_items pid).top_items.insertIdx
      (unwrap_pos (binary_search_by (fun item => cmp_sales_rev item s)
        (node.remove_from_top_items pid).top_items))
      ⟨pid, "", 0, s, now⟩) := by
    apply sortedDesc_insertIdx _ _ _ h1.1 hb.1
    · intro i hi hilen
      exact hb.2.1 i hi hilen
    · intro i hi hilen
      exact hb.2.2 i hi hilen
  constructor
  · rw [update_top_items_top_items_eq]
    split
    · exact sortedDesc_sublist (List.take_sublist _ _) hsorted2
    · exact hsorted2
  · rw [update_top_items_top_items_eq]
    split
    · rw [List.length_take]
      omega
    · omega

/-- The full re-sort of the insert-path update keeps the list sorted
descending and caps its length at 100. -/
theorem update_top_sales_items_spec (l : List ProductSales) (pid s : Nat) (now : Int) :
    sortedDesc (update_top_sales_items l pid s now) ∧
    (update_top_sales_items l pid s now).length ≤ 100 := by
  have hsorted : sortedDesc ((l ++ [(⟨pid, "", 0, s, now⟩ : ProductSales)]).mergeSort
      (fun a b => decide (b.sales ≤ a.sales))) := by
    have hs := @List.sorted_mergeSort _ (fun a b => decide (b.sales ≤ a.sales))
      (fun a b c hab hbc => by
        simp only [decide_eq_true_eq] at *
        omega)
      (fun a b => by
        simp only [Bool.or_eq_true, decide_eq_true_eq]
        omega)
      (l ++ [(⟨pid, "", 0, s, now⟩ : ProductSales)])
    exact hs.imp (fun hab => by simpa using hab)
  constructor
  · simp only [update_top_sales_items]
    split
    · exact sortedDesc_sublist (List.take_sublist _ _) hsorted
    · exact hsorted
  · simp only [update_top_sales_items]
    split
    · rw [List.length_take]
      omega
    · omega

/-- C8: `top_items` stays sorted descending by `sales` and bounded in
length under every operation that touches it.  `update_top_items`
(remove existing entry, binary-search insertion, truncate to the 20-item
cap) needs no re-sort; `add_product`, `update_product_sales` and
`remove_product` preserve the invariant through it; the insert-path
`update_top_sales_items` re-sorts and truncates to its 100-item cap. -/
theorem c8_top_items_sorted_and_bounded (node : SalesIndexNode) (pid s : Nat)
    (now : Int) (hsort : sortedDesc node.top_items)
    (hlen : node.top_items.length ≤ 100) :
    (sortedDesc (node.update_top_items pid s now).top_items ∧
      (node.update_top_items pid s now).top_items.length ≤ 20) ∧
    (∀ node2, node.add_product pid s now = .ok node2 →
      sortedDesc node2.top_items ∧ node2.top_items.length ≤ 100) ∧
    (sortedDesc (node.update_product_sales pid s now).top_items ∧
      (node.update_product_sales pid s now).top_items.length ≤ 100) ∧
    (sortedDesc (node.remove_product pid).1.top_items ∧
      (node.remove_product pid).1.top_items.length ≤ 100) ∧
    (sortedDesc (update_top_sales_items node.top_items pid s now) ∧
      (update_top_sales_items node.top_items pid s now).length ≤ 100) := by
  refine ⟨update_top_items_spec node pid s now hsort, ?_, ?_, ?_,
    update_top_sales_items_spec node.top_items pid s now⟩
  · intro node2 hok
    unfold SalesIndexNode.add_product at hok
    split at hok
    · split at hok
      · cases hok
        exact ⟨hsort, hlen⟩
      · cases hok
        have hspec := update_top_items_spec
          { node with product_ids := node.product_ids ++ [pid] } pid s now hsort
        exact ⟨hspec.1, by omega⟩
    · cases hok
  · unfold SalesIndexNode.update_product_sales
    split
    · have hspec := update_top_items_spec node pid s now hsort
      exact ⟨hspec.1, by omega⟩
    · exact ⟨hsort, hlen⟩
  · unfold SalesIndexNode.remove_product
    cases hf : node.product_ids.findIdx? (fun x => x == pid) with
    | some index =>
      have hspec := remove_from_top_items_spec
        { node with product_ids := node.product_ids.eraseIdx index } pid hsort
      exact ⟨hspec.1, le_trans hspec.2 hlen⟩
    | none => exact ⟨hsort, hlen⟩

/-- Witness for C8 on a two-entry cache sorted 9 > 3, updating id 7 to
sales 5 (lands between them) and exercising all four operations. -/
theorem c8_top_items_sorted_and_bounded_witness :
    sortedDesc ((⟨0, 1000, [9, 3], [⟨9, "", 0, 9, 0⟩, ⟨3, "", 0, 3, 0⟩]⟩ : SalesIndexNode).update_top_items 7 5 0).top_items ∧
    ((⟨0, 1000, [9, 3], [⟨9, "", 0, 9, 0⟩, ⟨3, "", 0, 3, 0⟩]⟩ : SalesIndexNode).update_top_items 7 5 0).top_items.length ≤ 20 ∧
    ((⟨0, 1000, [9, 3], [⟨9, "", 0, 9, 0⟩, ⟨3, "", 0, 3, 0⟩]⟩ : SalesIndexNode).update_top_items 7 5 0).top_items =
      [⟨9, "", 0, 9, 0⟩, ⟨7, "", 0, 5, 0⟩, ⟨3, "", 0, 3, 0⟩] ∧
    sortedDesc (update_top_sales_items [⟨9, "", 0, 9, 0⟩, ⟨3, "", 0, 3, 0⟩] 7 5 0) := by
  have h := c8_top_items_sorted_and_bounded
    (⟨0, 1000, [9, 3], [⟨9, "", 0, 9, 0⟩, ⟨3, "", 0, 3, 0⟩]⟩ : SalesIndexNode) 7 5 0
    (by simp [sortedDesc]) (by simp)
  exact ⟨h.1.1, h.1.2, rfl, (h.2.2.2.2).1⟩

end Shop
